import Mathlib

/-!
# Verification of `qr.py` (homebox-label-printer)

A shallow embedding of `src/qr.py`, a script that renders a strip of QR-code
asset labels.  Strings are modelled as `List Char` (ASCII inputs), Python
integers as `Int`, and image rendering (the `qrcode` library and Pillow font
rasterisation) as abstract images carrying only their dimensions, which is all
the script's arithmetic depends on.  Fallible Python code (raising
`ValueError`) is modelled with `Option`.
-/

/-! ## Constants (lines 23-33 of qr.py) -/

def TAPE_HEIGHT : Nat := 76
def ELEMENT_GAP : Nat := 6
def LABEL_GAP : Nat := 1
def QR_VERSION : Nat := 1
def QR_BOX_SIZE : Nat := 2
def QR_BORDER : Nat := 4
def FONT_SIZE : Nat := 32
def TEXT_LINE_SPACING : Nat := 28
def TEXT_START_Y : Nat := 38
def TEMP_CANVAS_WIDTH : Nat := 90

/-! ## Decimal rendering: Python's `%d` / `%03d` (used in f-strings)

`natDigitsAux` is fuel-based structural recursion so that the kernel can
evaluate it (well-founded recursion would not reduce under `decide`/`rfl`).
`natDigits n` is the decimal digit string of `n`, most significant first. -/

def digitChar (k : Nat) : Char := Char.ofNat (48 + k)

def natDigitsAux : Nat → Nat → List Char
  | 0, _ => []
  | fuel + 1, n =>
    if n < 10 then [digitChar n]
    else natDigitsAux fuel (n / 10) ++ [digitChar (n % 10)]

def natDigits (n : Nat) : List Char := natDigitsAux (n + 1) n

/-- Python `f"{v:03d}"`: decimal rendering of an integer, zero-padded on the
left to width 3; for a negative value the sign precedes the zero padding and
counts toward the width. -/
def pad3 (v : Int) : List Char :=
  if v < 0 then
    let d := natDigits (-v).toNat
    '-' :: (List.replicate (2 - d.length) '0' ++ d)
  else
    let d := natDigits v.toNat
    List.replicate (3 - d.length) '0' ++ d

/-- Line 97 of qr.py: `asset_id = f"{number // 1000:03d}-{number % 1000:03d}"`.
Python `//` and `%` are floor division and its remainder, i.e. `Int.fdiv` /
`Int.fmod`. -/
def formatAssetId (number : Int) : List Char :=
  pad3 (Int.fdiv number 1000) ++ '-' :: pad3 (Int.fmod number 1000)

/-! ## Python `str.split(sep)` for a one-character separator -/

def splitOnChar (sep : Char) : List Char → List (List Char)
  | [] => [[]]
  | c :: cs =>
    match splitOnChar sep cs with
    | [] => [[c]]
    | h :: t => if c = sep then [] :: h :: t else (c :: h) :: t

/-! ## Python `int(s)` on a base-10 string literal (ASCII model)

Python strips surrounding whitespace, accepts one optional sign, then a
nonempty digit run in which single underscores may separate two digits.
(The model restricts to ASCII digits and whitespace; the script only ever
feeds it ASCII command-line text.) -/

def isPyWs (c : Char) : Bool :=
  c = ' ' || c = '\t' || c = '\n' || c = '\x0d' || c = '\x0b' || c = '\x0c'

def trimWs (s : List Char) : List Char :=
  ((s.dropWhile isPyWs).reverse.dropWhile isPyWs).reverse

/-- Consume the remaining characters of a digit run after at least one digit
has been read, allowing a single `'_'` between two digits, accumulating the
value. -/
def parseDigRest (acc : Nat) : List Char → Option Nat
  | [] => some acc
  | c :: cs =>
    if c.isDigit then parseDigRest (acc * 10 + (c.toNat - 48)) cs
    else if c = '_' then
      match cs with
      | [] => none
      | c2 :: cs2 =>
        if c2.isDigit then parseDigRest (acc * 10 + (c2.toNat - 48)) cs2 else none
    else none

/-- A nonempty digit run (first character must be a digit, no leading `'_'`). -/
def parseDigits : List Char → Option Nat
  | [] => none
  | c :: cs => if c.isDigit then parseDigRest (c.toNat - 48) cs else none

/-- Python `int(s)`: returns `none` where Python raises `ValueError`. -/
def pythonInt (s : List Char) : Option Int :=
  match trimWs s with
  | [] => none
  | c :: rest =>
    if c = '+' then (parseDigits rest).map Int.ofNat
    else if c = '-' then (parseDigits rest).map (fun n => -(n : Int))
    else (parseDigits (c :: rest)).map Int.ofNat

/-! ## `asset_id_to_int` (lines 59-82 of qr.py)

Splits on `'-'`, requires exactly two parts, parses each with `int`, and
returns `major * 1000 + minor`; any failure (wrong part count, unparseable
part) raises `ValueError`, modelled as `none`. -/

def asset_id_to_int (asset_id_str : List Char) : Option Int :=
  match splitOnChar '-' asset_id_str with
  | [p0, p1] =>
    match pythonInt p0, pythonInt p1 with
    | some major, some minor => some (major * 1000 + minor)
    | _, _ => none
  | _ => none

/-! ## Python `range(a, b)` over integers -/

def pyRange (a b : Int) : List Int :=
  (List.range (b - a).toNat).map (fun (i : Nat) => a + (i : Int))

/-! ## Images

The script only ever inspects `.width` and `.height` of the bitmaps it builds,
so an image is modelled by its dimensions.  `Image.new` creates an image of the
given size; `paste` draws into an existing image and leaves its size unchanged,
exactly as Pillow's `Image.paste` does. -/

structure Img where
  width : Nat
  height : Nat
deriving DecidableEq, Repr

def Img.new (w h : Nat) : Img := ⟨w, h⟩

def Img.paste (base : Img) (_other : Img) (_pos : Int × Int) : Img := base

/-- Outcome of the external `ptouch-print` subprocess (line 162):
it may succeed, exit non-zero (`CalledProcessError`) or be missing from the
system (`FileNotFoundError`). -/
inductive PrintOutcome where
  | success
  | nonZeroExit
  | missingBinary
deriving DecidableEq, Repr

/-! ## `create_label` (lines 84-128 of qr.py)

`renderQR` abstracts lines 99-107 (the `qrcode` library rendering the string
`url + asset_id` to a bitmap) and `renderText` abstracts lines 109-120 (font
rasterisation of the two ID halves followed by `crop(getbbox())`); both are
environment-dependent black boxes whose output dimensions are all the rest of
the code uses. -/

def create_label (renderQR renderText : List Char → Img) (number : Int)
    (url : List Char) : Img :=
  let asset_id := formatAssetId number
  let qr_img := renderQR (url ++ asset_id)
  let text_img := renderText asset_id
  let unit_w := qr_img.width + ELEMENT_GAP + text_img.width
  let unit := Img.new unit_w TAPE_HEIGHT
  let unit := unit.paste qr_img (0, ((TAPE_HEIGHT : Int) - qr_img.height) / 2)
  let unit := unit.paste text_img
    ((qr_img.width : Int) + ELEMENT_GAP, ((TAPE_HEIGHT : Int) - text_img.height) / 2)
  unit

/-! ## `generate_label_strip` (lines 131-165 of qr.py) -/

structure GenResult where
  strip : Img
  imageFilename : List Char
  /-- files present on disk after the call (the strip is always saved, line 157) -/
  filesPresent : List (List Char)
  printAttempted : Bool
  printSucceeded : Bool
  /-- a printing error was caught and reported (lines 164-165) -/
  printErrorLogged : Bool
deriving DecidableEq, Repr

/-- Line 143: `labels = [create_label(i, url) for i in range(start_id, end_id + 1)]`. -/
def stripLabels (renderQR renderText : List Char → Img)
    (start_id end_id : Int) (url : List Char) : List Img :=
  (pyRange start_id (end_id + 1)).map
    (fun i => create_label renderQR renderText i url)

def generate_label_strip (renderQR renderText : List Char → Img)
    (start_id end_id : Int) (url : List Char) ( print_label : Bool)
    (printer : PrintOutcome) (output_filename : Option (List Char)) : GenResult :=
  let labels := stripLabels renderQR renderText start_id end_id url
  let total_w := (labels.map Img.width).sum + labels.length * LABEL_GAP
  let strip0 := Img.new total_w TAPE_HEIGHT
  let strip := (labels.foldl
    (fun (st : Img × Int) l => (st.1.paste l (st.2, 0), st.2 + l.width + LABEL_GAP))
    (strip0, 0)).1
  let image_filename := match output_filename with
    | some f => f
    | none => "asset_labels.png".data
  -- strip.save(image_filename); the try/except around the print subprocess
  -- catches both failure modes, so the function always returns normally.
  if print_label then
    match printer with
    | .success => ⟨strip, image_filename, [image_filename], true, true, false⟩
    | _ => ⟨strip, image_filename, [image_filename], true, false, true⟩
  else ⟨strip, image_filename, [image_filename], false, false, false⟩

/-! ## `main` (lines 186-205 of qr.py)

`domain` is `args.domain`, i.e. the `--domain` flag when given, else the
`HOMEBOX_DOMAIN` environment variable, else `none`; the Python truthiness test
`if not args.domain` also rejects an empty string.  `parser.error` prints a
usage message and exits the process with status 2 before any image work. -/

inductive Outcome where
  | usageError
  | completed : GenResult → Outcome
deriving DecidableEq, Repr

def filesWritten : Outcome → List (List Char)
  | .usageError => []
  | .completed g => g.filesPresent

def processExitCode : Outcome → Nat
  | .usageError => 2
  | .completed _ => 0

def main' (renderQR renderText : List Char → Img) (domain : Option (List Char))
    (startS endS : List Char) ( print_flag : Bool)
    (output : Option (List Char)) (printer : PrintOutcome) : Outcome :=
  match domain with
  | none => .usageError
  | some d =>
    if d = [] then .usageError
    else
      match asset_id_to_int startS, asset_id_to_int endS with
      | some start_int, some end_int =>
        if start_int > end_int then .usageError
        else .completed (generate_label_strip renderQR renderText start_int end_int
          ("https://".data ++ d ++ "/a/".data) print_flag printer output)
      | _, _ => .usageError

/-! ## Character facts -/

theorem digitChar_isDigit {k : Nat} (h : k < 10) : (digitChar k).isDigit = true := by
  interval_cases k <;> decide

theorem digitChar_toNat {k : Nat} (h : k < 10) : (digitChar k).toNat = 48 + k := by
  interval_cases k <;> decide

theorem isDigit_val {c : Char} (h : c.isDigit = true) : 48 ≤ c.toNat ∧ c.toNat ≤ 57 := by
  simp [Char.isDigit] at h
  exact ⟨h.1, h.2⟩

theorem isDigit_ne_dash {c : Char} (h : c.isDigit = true) : c ≠ '-' := by
  intro he; subst he; exact absurd h (by decide)

theorem isDigit_ne_plus {c : Char} (h : c.isDigit = true) : c ≠ '+' := by
  intro he; subst he; exact absurd h (by decide)

theorem isDigit_not_isPyWs {c : Char} (h : c.isDigit = true) : isPyWs c = false := by
  simp only [isPyWs, Bool.or_eq_false_iff, decide_eq_false_iff_not]
  refine ⟨⟨⟨⟨⟨?_, ?_⟩, ?_⟩, ?_⟩, ?_⟩, ?_⟩ <;>
    (intro he; subst he; exact absurd h (by decide))

/-! ## Decimal digit strings -/

/-- One step of reading a decimal digit: the accumulated-value update. -/
def digStep (a : Nat) (c : Char) : Nat := a * 10 + (c.toNat - 48)

theorem natDigitsAux_digits :
    ∀ fuel n, ∀ c ∈ natDigitsAux fuel n, c.isDigit = true := by
  intro fuel
  induction fuel with
  | zero => intro n c hc; simp [natDigitsAux] at hc
  | succ fuel ih =>
    intro n c hc
    by_cases h : n < 10
    · simp [natDigitsAux, h] at hc
      subst hc; exact digitChar_isDigit h
    · simp [natDigitsAux, h, List.mem_append] at hc
      rcases hc with hc | hc
      · exact ih _ _ hc
      · subst hc; exact digitChar_isDigit (Nat.mod_lt _ (by omega))

theorem natDigitsAux_ne_nil (fuel n : Nat) (h : 0 < fuel) :
    natDigitsAux fuel n ≠ [] := by
  cases fuel with
  | zero => omega
  | succ fuel =>
    by_cases hn : n < 10 <;> simp [natDigitsAux, hn]

theorem natDigits_digits (n : Nat) : ∀ c ∈ natDigits n, c.isDigit = true :=
  natDigitsAux_digits (n + 1) n

theorem natDigits_ne_nil (n : Nat) : natDigits n ≠ [] :=
  natDigitsAux_ne_nil (n + 1) n (Nat.succ_pos n)

theorem natDigitsAux_foldl :
    ∀ fuel n acc, n < 10 ^ fuel →
      List.foldl digStep acc (natDigitsAux fuel n)
        = acc * 10 ^ (natDigitsAux fuel n).length + n := by
  intro fuel
  induction fuel with
  | zero =>
    intro n acc hn
    simp [natDigitsAux]
    omega
  | succ fuel ih =>
    intro n acc hn
    by_cases h : n < 10
    · simp only [natDigitsAux, if_pos h, List.foldl_cons, List.foldl_nil,
        List.length_cons, List.length_nil, digStep, digitChar_toNat h, pow_one]
      omega
    · have hdiv : n / 10 < 10 ^ fuel := by
        rw [Nat.div_lt_iff_lt_mul (by omega)]
        calc n < 10 ^ (fuel + 1) := hn
        _ = 10 ^ fuel * 10 := by ring
      simp only [natDigitsAux, if_neg h, List.foldl_append, List.length_append,
        List.foldl_cons, List.foldl_nil, List.length_cons, List.length_nil]
      rw [ih _ acc hdiv]
      simp only [digStep, digitChar_toNat (Nat.mod_lt n (by omega)),
        Nat.add_sub_cancel_left, pow_succ, ← mul_assoc]
      generalize acc * 10 ^ (natDigitsAux fuel (n / 10)).length = A
      omega

theorem natDigits_foldl (n : Nat) : List.foldl digStep 0 (natDigits n) = n := by
  have h10 : n < 10 ^ (n + 1) := by
    calc n < 10 ^ n := Nat.lt_pow_self (by norm_num) n
    _ ≤ 10 ^ (n + 1) := Nat.pow_le_pow_right (by norm_num) (Nat.le_succ n)
  have := natDigitsAux_foldl (n + 1) n 0 h10
  rw [natDigits, this]
  simp

theorem natDigitsAux_lt_pow_length :
    ∀ fuel n, n < 10 ^ fuel → n < 10 ^ (natDigitsAux fuel n).length := by
  intro fuel
  induction fuel with
  | zero => intro n hn; simpa [natDigitsAux] using hn
  | succ fuel ih =>
    intro n hn
    by_cases h : n < 10
    · simp [natDigitsAux, h]
    · have hdiv : n / 10 < 10 ^ fuel := by
        rw [Nat.div_lt_iff_lt_mul (by omega)]
        calc n < 10 ^ (fuel + 1) := hn
        _ = 10 ^ fuel * 10 := by ring
      have hrec := ih (n / 10) hdiv
      simp only [natDigitsAux, if_neg h, List.length_append, List.length_cons,
        List.length_nil, pow_succ]
      have : n < (n / 10 + 1) * 10 := by omega
      calc n < (n / 10 + 1) * 10 := this
      _ ≤ 10 ^ (natDigitsAux fuel (n / 10)).length * 10 := by
        have : n / 10 + 1 ≤ 10 ^ (natDigitsAux fuel (n / 10)).length := hrec
        exact Nat.mul_le_mul_right 10 this
      _ = 10 ^ ((natDigitsAux fuel (n / 10)).length + 0 + 1) := by ring

theorem natDigitsAux_length_le :
    ∀ fuel k n, n < 10 ^ (k + 1) → (natDigitsAux fuel n).length ≤ k + 1 := by
  intro fuel
  induction fuel with
  | zero => intro k n _; simp [natDigitsAux]
  | succ fuel ih =>
    intro k n hn
    by_cases h : n < 10
    · simp [natDigitsAux, h]
    · cases k with
      | zero => simp at hn; omega
      | succ k =>
        have hdiv : n / 10 < 10 ^ (k + 1) := by
          rw [Nat.div_lt_iff_lt_mul (by omega)]
          calc n < 10 ^ (k + 1 + 1) := hn
          _ = 10 ^ (k + 1) * 10 := by ring
        have := ih k (n / 10) hdiv
        simp only [natDigitsAux, if_neg h, List.length_append, List.length_cons,
          List.length_nil]
        omega

theorem natDigits_length_le_three {n : Nat} (h : n < 1000) :
    (natDigits n).length ≤ 3 := by
  have := natDigitsAux_length_le (n + 1) 2 n (by norm_num; omega)
  simpa [natDigits] using this

theorem natDigits_length_ge_four {n : Nat} (h : 1000 ≤ n) :
    4 ≤ (natDigits n).length := by
  by_contra hc
  push_neg at hc
  have h10 : n < 10 ^ (n + 1) := by
    calc n < 10 ^ n := Nat.lt_pow_self (by norm_num) n
    _ ≤ 10 ^ (n + 1) := Nat.pow_le_pow_right (by norm_num) (Nat.le_succ n)
  have hlt := natDigitsAux_lt_pow_length (n + 1) n h10
  have : n < 10 ^ (natDigits n).length := hlt
  have hle : (10 : Nat) ^ (natDigits n).length ≤ 10 ^ 3 :=
    Nat.pow_le_pow_right (by norm_num) (by omega)
  norm_num at hle
  omega

/-! ## `pad3` on non-negative values -/

theorem pad3_nonneg {v : Int} (h : 0 ≤ v) :
    pad3 v = List.replicate (3 - (natDigits v.toNat).length) '0' ++ natDigits v.toNat := by
  simp [pad3, if_neg (not_lt.mpr h)]

theorem pad3_digits {v : Int} (h : 0 ≤ v) : ∀ c ∈ pad3 v, c.isDigit = true := by
  intro c hc
  rw [pad3_nonneg h, List.mem_append] at hc
  rcases hc with hc | hc
  · rw [List.eq_of_mem_replicate hc]; decide
  · exact natDigits_digits _ _ hc

theorem pad3_ne_nil {v : Int} (h : 0 ≤ v) : pad3 v ≠ [] := by
  rw [pad3_nonneg h]
  intro he
  exact natDigits_ne_nil v.toNat (List.append_eq_nil.mp he).2

theorem pad3_length {v : Int} (h0 : 0 ≤ v) (h : v < 1000) : (pad3 v).length = 3 := by
  have ht : v.toNat < 1000 := by omega
  have hle := natDigits_length_le_three ht
  rw [pad3_nonneg h0]
  simp [List.length_append, List.length_replicate]
  omega

theorem foldl_digStep_replicate (k : Nat) :
    List.foldl digStep 0 (List.replicate k '0') = 0 := by
  induction k with
  | zero => rfl
  | succ k ih => simpa [List.replicate_succ, digStep] using ih

theorem pad3_foldl {v : Int} (h : 0 ≤ v) :
    List.foldl digStep 0 (pad3 v) = v.toNat := by
  rw [pad3_nonneg h, List.foldl_append, foldl_digStep_replicate, natDigits_foldl]

/-! ## The digit-run parser on all-digit strings -/

theorem parseDigRest_digits :
    ∀ l acc, (∀ c ∈ l, c.isDigit = true) →
      parseDigRest acc l = some (List.foldl digStep acc l) := by
  intro l
  induction l with
  | nil => intro acc _; rfl
  | cons c cs ih =>
    intro acc h
    have hc : c.isDigit = true := h c (List.mem_cons_self c cs)
    have hstep : parseDigRest acc (c :: cs)
        = parseDigRest (acc * 10 + (c.toNat - 48)) cs := by
      rw [parseDigRest.eq_def]
      simp [hc]
    rw [hstep, List.foldl_cons]
    have : digStep acc c = acc * 10 + (c.toNat - 48) := rfl
    rw [← this]
    exact ih _ (fun x hx => h x (List.mem_cons_of_mem c hx))

theorem parseDigits_digits (l : List Char) (hne : l ≠ [])
    (h : ∀ c ∈ l, c.isDigit = true) :
    parseDigits l = some (List.foldl digStep 0 l) := by
  cases l with
  | nil => exact absurd rfl hne
  | cons c cs =>
    have hc : c.isDigit = true := h c (List.mem_cons_self c cs)
    simp only [parseDigits, if_pos hc, List.foldl_cons]
    have : digStep 0 c = c.toNat - 48 := by simp [digStep]
    rw [← this]
    exact parseDigRest_digits cs _ (fun x hx => h x (List.mem_cons_of_mem c hx))

/-! ## Whitespace trimming on all-digit strings -/

theorem dropWhile_isPyWs_of_digits {l : List Char}
    (h : ∀ c ∈ l, c.isDigit = true) : l.dropWhile isPyWs = l := by
  cases l with
  | nil => rfl
  | cons c cs =>
    have : isPyWs c = false := isDigit_not_isPyWs (h c (List.mem_cons_self c cs))
    simp [List.dropWhile_cons, this]

theorem trimWs_digits {l : List Char} (h : ∀ c ∈ l, c.isDigit = true) :
    trimWs l = l := by
  unfold trimWs
  rw [dropWhile_isPyWs_of_digits h]
  rw [dropWhile_isPyWs_of_digits (fun c hc => h c (List.mem_reverse.mp hc))]
  exact List.reverse_reverse l

/-! ## `pythonInt` on all-digit strings -/

theorem pythonInt_digits (l : List Char) (hne : l ≠ [])
    (h : ∀ c ∈ l, c.isDigit = true) :
    pythonInt l = some (Int.ofNat (List.foldl digStep 0 l)) := by
  cases hl : l with
  | nil => exact absurd hl hne
  | cons c cs =>
    subst hl
    have hc : c.isDigit = true := h c (List.mem_cons_self c cs)
    have ht : trimWs (c :: cs) = c :: cs := trimWs_digits h
    simp only [pythonInt, ht, if_neg (isDigit_ne_plus hc), if_neg (isDigit_ne_dash hc)]
    rw [parseDigits_digits _ hne h]
    rfl

theorem pythonInt_pad3 {v : Int} (h : 0 ≤ v) : pythonInt (pad3 v) = some v := by
  rw [pythonInt_digits _ (pad3_ne_nil h) (pad3_digits h), pad3_foldl h]
  congr 1
  simp [Int.ofNat_eq_natCast, Int.toNat_of_nonneg h]

theorem pythonInt_natDigits (n : Nat) : pythonInt (natDigits n) = some (n : Int) := by
  rw [pythonInt_digits _ (natDigits_ne_nil n) (natDigits_digits n), natDigits_foldl]
  rfl

/-! ## `splitOnChar` lemmas -/

theorem splitOnChar_cons (sep c : Char) (cs : List Char) :
    splitOnChar sep (c :: cs)
      = match splitOnChar sep cs with
        | [] => [[c]]
        | h :: t => if c = sep then [] :: h :: t else (c :: h) :: t := rfl

theorem splitOnChar_ne_nil (sep : Char) (s : List Char) : splitOnChar sep s ≠ [] := by
  cases s with
  | nil => simp [splitOnChar]
  | cons c cs =>
    rw [splitOnChar_cons]
    cases hs : splitOnChar sep cs with
    | nil => simp
    | cons h t =>
      by_cases hc : c = sep <;> simp [hc]

theorem splitOnChar_no_sep {sep : Char} :
    ∀ s : List Char, (∀ c ∈ s, c ≠ sep) → splitOnChar sep s = [s] := by
  intro s
  induction s with
  | nil => intro _; rfl
  | cons c cs ih =>
    intro h
    have hc : c ≠ sep := h c (List.mem_cons_self c cs)
    rw [splitOnChar_cons, ih (fun x hx => h x (List.mem_cons_of_mem c hx))]
    simp [hc]

theorem splitOnChar_append {sep : Char} :
    ∀ p q : List Char, (∀ c ∈ p, c ≠ sep) →
      splitOnChar sep (p ++ sep :: q) = p :: splitOnChar sep q := by
  intro p
  induction p with
  | nil =>
    intro q _
    simp only [List.nil_append]
    rw [splitOnChar_cons]
    cases hs : splitOnChar sep q with
    | nil => exact absurd hs (splitOnChar_ne_nil sep q)
    | cons h t => simp [← hs]
  | cons c p' ih =>
    intro q h
    have hc : c ≠ sep := h c (List.mem_cons_self c p')
    simp only [List.cons_append]
    rw [splitOnChar_cons, ih q (fun x hx => h x (List.mem_cons_of_mem c hx))]
    simp [hc]

theorem splitOnChar_parts {sep : Char} :
    ∀ s : List Char, ∀ part ∈ splitOnChar sep s, ∀ c ∈ part, c ≠ sep := by
  intro s
  induction s with
  | nil =>
    intro part hp c hc
    simp [splitOnChar] at hp
    subst hp
    simp at hc
  | cons a cs ih =>
    intro part hp c hc
    rw [splitOnChar_cons] at hp
    cases hs : splitOnChar sep cs with
    | nil => exact absurd hs (splitOnChar_ne_nil sep cs)
    | cons h t =>
      rw [hs] at hp
      by_cases ha : a = sep
      · simp only [if_pos ha] at hp
        rcases List.mem_cons.mp hp with hp | hp
        · subst hp; simp at hc
        · exact ih part (hs ▸ hp) c hc
      · simp only [if_neg ha] at hp
        rcases List.mem_cons.mp hp with hp | hp
        · subst hp
          rcases List.mem_cons.mp hc with hc | hc
          · subst hc; exact ha
          · exact ih h (hs ▸ List.mem_cons_self h t) c hc
        · exact ih part (hs ▸ List.mem_cons_of_mem h hp) c hc

theorem splitOnChar_singleton {sep : Char} :
    ∀ s x : List Char, splitOnChar sep s = [x] → s = x := by
  intro s
  induction s with
  | nil =>
    intro x h
    simp [splitOnChar] at h
    exact h.symm
  | cons a cs ih =>
    intro x h
    rw [splitOnChar_cons] at h
    cases hs : splitOnChar sep cs with
    | nil => exact absurd hs (splitOnChar_ne_nil sep cs)
    | cons h0 t =>
      rw [hs] at h
      by_cases ha : a = sep
      · simp [if_pos ha] at h
      · simp only [if_neg ha] at h
        have h1 : a :: h0 = x := (List.cons_eq_cons.mp h).1
        have h2 : t = [] := (List.cons_eq_cons.mp h).2
        subst h2
        have := ih h0 hs
        rw [← h1, this]

theorem splitOnChar_two {sep : Char} :
    ∀ s p q : List Char, splitOnChar sep s = [p, q] → s = p ++ sep :: q := by
  intro s
  induction s with
  | nil => intro p q h; simp [splitOnChar] at h
  | cons a cs ih =>
    intro p q h
    rw [splitOnChar_cons] at h
    cases hs : splitOnChar sep cs with
    | nil => exact absurd hs (splitOnChar_ne_nil sep cs)
    | cons h0 t =>
      rw [hs] at h
      by_cases ha : a = sep
      · simp only [if_pos ha] at h
        have h1 : ([] : List Char) = p := (List.cons_eq_cons.mp h).1
        have h2 : h0 :: t = [q] := (List.cons_eq_cons.mp h).2
        subst ha
        rw [← h1, List.nil_append]
        have : cs = q := splitOnChar_singleton cs q (hs.trans h2)
        rw [this]
      · simp only [if_neg ha] at h
        have h1 : a :: h0 = p := (List.cons_eq_cons.mp h).1
        have h2 : t = [q] := (List.cons_eq_cons.mp h).2
        have hcs : cs = h0 ++ sep :: q := ih h0 q (by rw [hs, h2])
        rw [← h1, hcs]
        simp

/-- Two decompositions around a single occurrence of `sep` agree when neither
left part contains `sep`. -/
theorem append_sep_inj {sep : Char} :
    ∀ a1 a2 b1 b2 : List Char, sep ∉ a1 → sep ∉ a2 →
      a1 ++ sep :: b1 = a2 ++ sep :: b2 → a1 = a2 ∧ b1 = b2 := by
  intro a1
  induction a1 with
  | nil =>
    intro a2 b1 b2 _ h2 he
    cases a2 with
    | nil => simpa using he
    | cons c a2' =>
      simp only [List.nil_append, List.cons_append, List.cons_eq_cons] at he
      exact absurd (he.1.symm ▸ List.mem_cons_self c a2') h2
  | cons c a1' ih =>
    intro a2 b1 b2 h1 h2 he
    cases a2 with
    | nil =>
      simp only [List.cons_append, List.nil_append, List.cons_eq_cons] at he
      exact absurd (he.1 ▸ List.mem_cons_self c a1') h1
    | cons d a2' =>
      simp only [List.cons_append, List.cons_eq_cons] at he
      have hcd : c = d := he.1
      have := ih a2' b1 b2 (fun hx => h1 (List.mem_cons_of_mem c hx))
        (fun hx => h2 (List.mem_cons_of_mem d hx)) he.2
      exact ⟨by rw [hcd, this.1], this.2⟩

/-! ## Sign of `pythonInt` results -/

theorem mem_trimWs {c : Char} {l : List Char} (h : c ∈ trimWs l) : c ∈ l := by
  unfold trimWs at h
  rw [List.mem_reverse] at h
  have h1 := (List.dropWhile_sublist (l := (l.dropWhile isPyWs).reverse) isPyWs).mem h
  rw [List.mem_reverse] at h1
  exact (List.dropWhile_sublist isPyWs).mem h1

theorem pythonInt_nonneg {l : List Char} {v : Int} (hd : '-' ∉ l)
    (h : pythonInt l = some v) : 0 ≤ v := by
  cases ht : trimWs l with
  | nil => simp only [pythonInt, ht] at h; exact absurd h (by simp)
  | cons c rest =>
    simp only [pythonInt, ht] at h
    by_cases hp : c = '+'
    · rw [if_pos hp] at h
      rcases Option.map_eq_some'.mp h with ⟨a, _, ha⟩
      rw [← ha]
      exact Int.ofNat_nonneg a
    · by_cases hm : c = '-'
      · exfalso
        apply hd
        apply mem_trimWs (l := l)
        rw [ht, hm]
        exact List.mem_cons_self _ _
      · rw [if_neg hp, if_neg hm] at h
        rcases Option.map_eq_some'.mp h with ⟨a, _, ha⟩
        rw [← ha]
        exact Int.ofNat_nonneg a

/-! ## Floor division and remainder on casts of naturals -/

theorem fdiv_natCast (m n : Nat) : ((m : Int)).fdiv ((n : Int)) = ((m / n : Nat) : Int) := by
  rw [Int.fdiv_eq_tdiv (Int.ofNat_nonneg m) (Int.ofNat_nonneg n)]
  exact (Int.ofNat_tdiv m n).symm

theorem fmod_natCast (m n : Nat) : ((m : Int)).fmod ((n : Int)) = ((m % n : Nat) : Int) := by
  rw [Int.fmod_eq_tmod (Int.ofNat_nonneg m) (Int.ofNat_nonneg n)]
  exact (Int.ofNat_tmod m n).symm

/-- `formatAssetId` on a cast natural expressed through `Nat` division. -/
theorem formatAssetId_natCast (m : Nat) :
    formatAssetId (m : Int)
      = pad3 ((m / 1000 : Nat) : Int) ++ '-' :: pad3 ((m % 1000 : Nat) : Int) := by
  unfold formatAssetId
  rw [show ((1000 : Int)) = ((1000 : Nat) : Int) by norm_num]
  rw [fdiv_natCast, fmod_natCast]

/-! ## Assembled parsing lemmas -/

theorem pad3_no_dash {v : Int} (h : 0 ≤ v) : '-' ∉ pad3 v := by
  intro hm
  exact isDigit_ne_dash (pad3_digits h '-' hm) rfl

theorem split_dash_pair {x y : List Char} (hx : '-' ∉ x) (hy : '-' ∉ y) :
    splitOnChar '-' (x ++ '-' :: y) = [x, y] := by
  rw [splitOnChar_append x _ (fun c hc (he : c = '-') => hx (he ▸ hc))]
  rw [splitOnChar_no_sep y (fun c hc (he : c = '-') => hy (he ▸ hc))]

theorem asset_id_to_int_split {s p q : List Char} {a b : Int}
    (hs : splitOnChar '-' s = [p, q]) (hp : pythonInt p = some a)
    (hq : pythonInt q = some b) :
    asset_id_to_int s = some (a * 1000 + b) := by
  simp only [asset_id_to_int, hs, hp, hq]

theorem asset_id_to_int_pads (M m : Nat) :
    asset_id_to_int (pad3 (M : Int) ++ '-' :: pad3 (m : Int))
      = some ((M : Int) * 1000 + (m : Int)) :=
  asset_id_to_int_split
    (split_dash_pair (pad3_no_dash (Int.ofNat_nonneg M)) (pad3_no_dash (Int.ofNat_nonneg m)))
    (pythonInt_pad3 (Int.ofNat_nonneg M)) (pythonInt_pad3 (Int.ofNat_nonneg m))

theorem formatAssetId_pads (M m : Nat) (hm : m < 1000) :
    formatAssetId ((M : Int) * 1000 + (m : Int))
      = pad3 (M : Int) ++ '-' :: pad3 (m : Int) := by
  have hcast : ((M : Int) * 1000 + (m : Int)) = ((M * 1000 + m : Nat) : Int) := by
    push_cast; ring
  rw [hcast, formatAssetId_natCast]
  have h1 : (M * 1000 + m) / 1000 = M := by omega
  have h2 : (M * 1000 + m) % 1000 = m := by omega
  rw [h1, h2]

/-! ## Pipeline lemmas -/

theorem foldl_paste_fst :
    ∀ (labels : List Img) (st : Img × Int),
      (labels.foldl
        (fun (st : Img × Int) l => (st.1.paste l (st.2, 0), st.2 + l.width + LABEL_GAP))
        st).1 = st.1 := by
  intro labels
  induction labels with
  | nil => intro st; rfl
  | cons l ls ih => intro st; rw [List.foldl_cons]; exact ih _

theorem pyRange_length (a b : Int) : (pyRange a b).length = (b - a).toNat := by
  rw [pyRange, List.length_map, List.length_range]

theorem pyRange_mem (a b i : Int) : i ∈ pyRange a b ↔ a ≤ i ∧ i < b := by
  simp only [pyRange, List.mem_map, List.mem_range]
  constructor
  · rintro ⟨k, hk, rfl⟩
    omega
  · rintro ⟨h1, h2⟩
    exact ⟨(i - a).toNat, by omega, by omega⟩

theorem pyRange_pairwise (a b : Int) : (pyRange a b).Pairwise (· < ·) := by
  refine List.Pairwise.map _ ?_ (List.pairwise_lt_range _)
  intro x y h
  omega

theorem generate_strip_eq (renderQR renderText : List Char → Img)
    (start_id end_id : Int) (url : List Char) ( print_label : Bool)
    (printer : PrintOutcome) (output_filename : Option (List Char)) :
    (generate_label_strip renderQR renderText start_id end_id url
        print_label printer output_filename).strip
      = Img.new
          (((stripLabels renderQR renderText start_id end_id url).map Img.width).sum
            + (stripLabels renderQR renderText start_id end_id url).length * LABEL_GAP)
          TAPE_HEIGHT := by
  unfold generate_label_strip
  cases print_label <;> cases printer <;>
    simp [foldl_paste_fst]

theorem generate_files_eq (renderQR renderText : List Char → Img)
    (start_id end_id : Int) (url : List Char) ( print_label : Bool)
    (printer : PrintOutcome) (output_filename : Option (List Char)) :
    (generate_label_strip renderQR renderText start_id end_id url
        print_label printer output_filename).filesPresent
      = [(generate_label_strip renderQR renderText start_id end_id url
          print_label printer output_filename).imageFilename] := by
  unfold generate_label_strip
  cases print_label <;> cases printer <;> simp

theorem Img.new_width (w h : Nat) : (Img.new w h).width = w := rfl

theorem Img.new_height (w h : Nat) : (Img.new w h).height = h := rfl

/-! # Claims -/

/-- C9: for every asset number and URL, the label bitmap built by
`create_label` has width equal to its QR symbol's width plus the fixed
`ELEMENT_GAP` plus the cropped text block's width, and height equal to the
fixed `TAPE_HEIGHT`. -/
theorem claim_C9 (renderQR renderText : List Char → Img) (number : Int)
    (url : List Char) :
    (create_label renderQR renderText number url).width
        = (renderQR (url ++ formatAssetId number)).width + ELEMENT_GAP
          + (renderText (formatAssetId number)).width
      ∧ (create_label renderQR renderText number url).height = TAPE_HEIGHT :=
  ⟨rfl, rfl⟩

/-- C8: with `--domain` absent and the `HOMEBOX_DOMAIN` fallback unset
(`domain = none`), `main` exits with a usage error (status 2) and no file is
written, before any image work. -/
theorem claim_C8 (renderQR renderText : List Char → Img) (startS endS : List Char)
    ( print_flag : Bool) (output : Option (List Char)) (printer : PrintOutcome) :
    main' renderQR renderText none startS endS print_flag output printer
        = .usageError
      ∧ filesWritten
          (main' renderQR renderText none startS endS print_flag output printer) = []
      ∧ processExitCode
          (main' renderQR renderText none startS endS print_flag output printer) = 2 :=
  ⟨rfl, rfl, rfl⟩

/-- C7: when printing is requested and the `ptouch-print` subprocess fails
(non-zero exit or missing binary), the failure is caught and reported, the
saved image file remains present, and the process still exits with status 0. -/
theorem claim_C7 (renderQR renderText : List Char → Img) (start_id end_id : Int)
    (url : List Char) (printer : PrintOutcome) (output_filename : Option (List Char))
    (hfail : printer ≠ .success) :
    (generate_label_strip renderQR renderText start_id end_id url true printer
          output_filename).filesPresent
        = [(generate_label_strip renderQR renderText start_id end_id url true printer
            output_filename).imageFilename]
      ∧ (generate_label_strip renderQR renderText start_id end_id url true printer
          output_filename).printErrorLogged = true
      ∧ processExitCode (.completed (generate_label_strip renderQR renderText start_id
          end_id url true printer output_filename)) = 0 := by
  cases printer with
  | success => exact absurd rfl hfail
  | nonZeroExit => exact ⟨rfl, rfl, rfl⟩
  | missingBinary => exact ⟨rfl, rfl, rfl⟩

/-- C7 witness: a concrete run with a failing printer. -/
theorem claim_C7_witness :
    (PrintOutcome.nonZeroExit ≠ PrintOutcome.success)
      ∧ ((generate_label_strip (fun _ => ⟨58, 58⟩) (fun _ => ⟨6, 60⟩) 1000 1001
            "https://box.example.com/a/".data true .nonZeroExit none).filesPresent
          = [(generate_label_strip (fun _ => ⟨58, 58⟩) (fun _ => ⟨6, 60⟩) 1000 1001
              "https://box.example.com/a/".data true .nonZeroExit none).imageFilename]
        ∧ (generate_label_strip (fun _ => ⟨58, 58⟩) (fun _ => ⟨6, 60⟩) 1000 1001
            "https://box.example.com/a/".data true .nonZeroExit none).printErrorLogged
            = true
        ∧ processExitCode (.completed (generate_label_strip (fun _ => ⟨58, 58⟩)
            (fun _ => ⟨6, 60⟩) 1000 1001 "https://box.example.com/a/".data true
            .nonZeroExit none)) = 0) :=
  ⟨by decide,
    claim_C7 (fun _ => ⟨58, 58⟩) (fun _ => ⟨6, 60⟩) 1000 1001
      "https://box.example.com/a/".data .nonZeroExit none (by decide)⟩

/-- C10: `asset_id_to_int` accepts strictly more than zero-padded three-digit
strings: any split into exactly two `int`-parseable parts succeeds and yields
`major * 1000 + minor`; e.g. `"1-2"` parses to 1002, as do `" 1 - 2 "` and
`"+1-0002"`. -/
theorem claim_C10 (s p q : List Char) (a b : Int)
    (hs : splitOnChar '-' s = [p, q]) (hp : pythonInt p = some a)
    (hq : pythonInt q = some b) :
    asset_id_to_int s = some (a * 1000 + b)
      ∧ asset_id_to_int "1-2".data = some 1002
      ∧ asset_id_to_int " 1 - 2 ".data = some 1002
      ∧ asset_id_to_int "+1-0002".data = some 1002 :=
  ⟨asset_id_to_int_split hs hp hq, by decide, by decide, by decide⟩

/-- C10 witness: the instance `"1-2"` with parts `"1"` and `"2"`. -/
theorem claim_C10_witness :
    splitOnChar '-' "1-2".data = ["1".data, "2".data]
      ∧ pythonInt "1".data = some 1
      ∧ pythonInt "2".data = some 2
      ∧ (asset_id_to_int "1-2".data = some (1 * 1000 + 2)
        ∧ asset_id_to_int "1-2".data = some 1002
        ∧ asset_id_to_int " 1 - 2 ".data = some 1002
        ∧ asset_id_to_int "+1-0002".data = some 1002) :=
  ⟨by decide, by decide, by decide,
    claim_C10 "1-2".data "1".data "2".data 1 2 (by decide) (by decide) (by decide)⟩

/-- C2: for every `"AAA-BBB"` string with both parts zero-padded to exactly
three decimal digits (so `major, minor < 1000`), parsing yields
`major * 1000 + minor` and formatting that integer with `"%03d-%03d"`
reproduces the original string: `format (parse text) = text`. -/
theorem claim_C2 (M m : Nat) (_hM : M < 1000) (hm : m < 1000) :
    asset_id_to_int (pad3 (M : Int) ++ '-' :: pad3 (m : Int))
        = some ((M : Int) * 1000 + (m : Int))
      ∧ formatAssetId ((M : Int) * 1000 + (m : Int))
        = pad3 (M : Int) ++ '-' :: pad3 (m : Int) :=
  ⟨asset_id_to_int_pads M m, formatAssetId_pads M m hm⟩

/-- C2 witness: the instance `"001-086"`. -/
theorem claim_C2_witness :
    1 < 1000 ∧ 86 < 1000
      ∧ (asset_id_to_int (pad3 ((1 : Nat) : Int) ++ '-' :: pad3 ((86 : Nat) : Int))
          = some (((1 : Nat) : Int) * 1000 + ((86 : Nat) : Int))
        ∧ formatAssetId (((1 : Nat) : Int) * 1000 + ((86 : Nat) : Int))
          = pad3 ((1 : Nat) : Int) ++ '-' :: pad3 ((86 : Nat) : Int)) :=
  ⟨by norm_num, by norm_num, claim_C2 1 86 (by norm_num) (by norm_num)⟩

/-- C3: the parser fails (raises `ValueError`, modelled as `none`) whenever
the input splits on `'-'` into a number of parts other than two, and whenever
the input splits into two parts of which either is not `int`-parseable. -/
theorem claim_C3 (s p q : List Char) :
    ((splitOnChar '-' s).length ≠ 2 → asset_id_to_int s = none)
      ∧ (splitOnChar '-' s = [p, q] →
          pythonInt p = none ∨ pythonInt q = none → asset_id_to_int s = none) := by
  constructor
  · intro h
    cases hs : splitOnChar '-' s with
    | nil => simp [asset_id_to_int, hs]
    | cons x t =>
      cases t with
      | nil => simp [asset_id_to_int, hs]
      | cons y t2 =>
        cases t2 with
        | nil => exact absurd (by rw [hs]; rfl) h
        | cons z t3 => simp [asset_id_to_int, hs]
  · intro hs hbad
    simp only [asset_id_to_int, hs]
    rcases hbad with h | h
    · rw [h]
    · rw [h]
      cases pythonInt p <;> rfl

/-- C3 witness: `"abc"` has one part; `"a-b"` has two non-numeric parts. -/
theorem claim_C3_witness :
    ((splitOnChar '-' "abc".data).length ≠ 2 ∧ asset_id_to_int "abc".data = none)
      ∧ (splitOnChar '-' "a-b".data = ["a".data, "b".data]
        ∧ pythonInt "a".data = none
        ∧ asset_id_to_int "a-b".data = none) :=
  ⟨⟨by decide, (claim_C3 "abc".data [] []).1 (by decide)⟩,
    ⟨by decide, by decide,
      (claim_C3 "a-b".data "a".data "b".data).2 (by decide) (Or.inl (by decide))⟩⟩

/-- C5: the codec does not validate `minor < 1000`.  Whenever the input splits
into two `int`-parseable parts and the minor value is at least 1000, parsing
still succeeds with `major * 1000 + minor`, but formatting that integer no
longer reproduces the input; in particular
`format (parse "001-1500") = format 2500 = "002-500"`. -/
theorem claim_C5 (s p q : List Char) (a b : Int)
    (hs : splitOnChar '-' s = [p, q]) (hp : pythonInt p = some a)
    (hq : pythonInt q = some b) (hb : 1000 ≤ b) :
    asset_id_to_int s = some (a * 1000 + b)
      ∧ formatAssetId (a * 1000 + b) ≠ s
      ∧ formatAssetId (1 * 1000 + 1500) = "002-500".data := by
  refine ⟨asset_id_to_int_split hs hp hq, ?_, by decide⟩
  have hpd : '-' ∉ p := fun hm =>
    splitOnChar_parts s p (hs ▸ List.mem_cons_self p [q]) '-' hm rfl
  have hqd : '-' ∉ q := fun hm =>
    splitOnChar_parts s q (hs ▸ List.mem_cons_of_mem p (List.mem_cons_self q []))
      '-' hm rfl
  have ha : 0 ≤ a := pythonInt_nonneg hpd hp
  have hb0 : 0 ≤ b := by omega
  have hseq : s = p ++ '-' :: q := splitOnChar_two s p q hs
  intro he
  have hn0 : 0 ≤ a * 1000 + b := by
    have : 0 ≤ a * 1000 := by positivity
    omega
  have hfmt : formatAssetId (a * 1000 + b)
      = pad3 (((a * 1000 + b).toNat / 1000 : Nat) : Int)
        ++ '-' :: pad3 (((a * 1000 + b).toNat % 1000 : Nat) : Int) := by
    conv_lhs => rw [← Int.toNat_of_nonneg hn0]
    exact formatAssetId_natCast _
  rw [hfmt, hseq] at he
  have hinj := append_sep_inj _ _ _ _
    (pad3_no_dash (Int.ofNat_nonneg ((a * 1000 + b).toNat / 1000))) hpd he
  have hq2 : pythonInt q = some (((a * 1000 + b).toNat % 1000 : Nat) : Int) := by
    rw [← hinj.2]
    exact pythonInt_pad3 (Int.ofNat_nonneg _)
  rw [hq] at hq2
  have hbval : b = (((a * 1000 + b).toNat % 1000 : Nat) : Int) := by
    injection hq2
  have hmod : (a * 1000 + b).toNat % 1000 < 1000 :=
    Nat.mod_lt _ (by norm_num)
  omega

/-- C5 witness: the instance `"001-1500"`, which parses to 2500 and formats
back to `"002-500"`. -/
theorem claim_C5_witness :
    splitOnChar '-' "001-1500".data = ["001".data, "1500".data]
      ∧ pythonInt "001".data = some 1
      ∧ pythonInt "1500".data = some 1500
      ∧ (1000 : Int) ≤ 1500
      ∧ (asset_id_to_int "001-1500".data = some (1 * 1000 + 1500)
        ∧ formatAssetId (1 * 1000 + 1500) ≠ "001-1500".data
        ∧ formatAssetId (1 * 1000 + 1500) = "002-500".data) :=
  ⟨by decide, by decide, by decide, by decide,
    claim_C5 "001-1500".data "001".data "1500".data 1 1500
      (by decide) (by decide) (by decide) (by decide)⟩

/-- C4: for start `"001-000"` and end `"001-002"` the pipeline renders exactly
three labels, for 1000, 1001, 1002 in ascending order, with ID texts
`"001-000"`, `"001-001"`, `"001-002"`; in general one label is rendered per
integer of the inclusive range, in strictly ascending order. -/
theorem claim_C4 (renderQR renderText : List Char → Img) (url : List Char) :
    (asset_id_to_int "001-000".data = some 1000
      ∧ asset_id_to_int "001-002".data = some 1002)
    ∧ pyRange 1000 (1002 + 1) = [1000, 1001, 1002]
    ∧ stripLabels renderQR renderText 1000 1002 url
        = [create_label renderQR renderText 1000 url,
           create_label renderQR renderText 1001 url,
           create_label renderQR renderText 1002 url]
    ∧ (formatAssetId 1000 = "001-000".data
      ∧ formatAssetId 1001 = "001-001".data
      ∧ formatAssetId 1002 = "001-002".data)
    ∧ (∀ s e : Int, (stripLabels renderQR renderText s e url).length
        = (e + 1 - s).toNat)
    ∧ (∀ s e i : Int, i ∈ pyRange s (e + 1) ↔ s ≤ i ∧ i ≤ e)
    ∧ (∀ s e : Int, (pyRange s (e + 1)).Pairwise (· < ·)) := by
  refine ⟨⟨by decide, by decide⟩, by decide, ?_, ⟨by decide, by decide, by decide⟩,
    ?_, ?_, ?_⟩
  · have hr : pyRange 1000 (1002 + 1) = [1000, 1001, 1002] := by decide
    rw [stripLabels, hr]
    rfl
  · intro s e
    rw [stripLabels, List.length_map, pyRange_length]
  · intro s e i
    rw [pyRange_mem]
    omega
  · intro s e
    exact pyRange_pairwise s (e + 1)

/-- C6: whenever the decoded start integer exceeds the decoded end integer,
`main` exits with a usage error (status 2) and writes no output file: the
generation step is never reached. -/
theorem claim_C6 (renderQR renderText : List Char → Img)
    (domain : Option (List Char)) (startS endS : List Char) ( print_flag : Bool)
    (output : Option (List Char)) (printer : PrintOutcome) (sI eI : Int)
    (hstart : asset_id_to_int startS = some sI)
    (hend : asset_id_to_int endS = some eI) (hgt : sI > eI) :
    main' renderQR renderText domain startS endS print_flag output printer
        = .usageError
      ∧ filesWritten
          (main' renderQR renderText domain startS endS print_flag output printer)
        = []
      ∧ processExitCode
          (main' renderQR renderText domain startS endS print_flag output printer)
        = 2 := by
  have hout : main' renderQR renderText domain startS endS print_flag output printer
      = .usageError := by
    cases domain with
    | none => rfl
    | some d =>
      by_cases hd : d = []
      · simp [main', hd]
      · simp only [main', if_neg hd, hstart, hend, if_pos hgt]
  exact ⟨hout, by rw [hout]; rfl, by rw [hout]; rfl⟩

/-- C6 witness: start `"001-002"` decodes to 1002, end `"001-001"` to 1001. -/
theorem claim_C6_witness :
    asset_id_to_int "001-002".data = some 1002
      ∧ asset_id_to_int "001-001".data = some 1001
      ∧ (1002 : Int) > 1001
      ∧ (main' (fun _ => ⟨58, 58⟩) (fun _ => ⟨6, 60⟩) (some "box.example.com".data)
            "001-002".data "001-001".data false none .success = .usageError
        ∧ filesWritten (main' (fun _ => ⟨58, 58⟩) (fun _ => ⟨6, 60⟩)
            (some "box.example.com".data) "001-002".data "001-001".data false none
            .success) = []
        ∧ processExitCode (main' (fun _ => ⟨58, 58⟩) (fun _ => ⟨6, 60⟩)
            (some "box.example.com".data) "001-002".data "001-001".data false none
            .success) = 2) :=
  ⟨by decide, by decide, by decide,
    claim_C6 (fun _ => ⟨58, 58⟩) (fun _ => ⟨6, 60⟩) (some "box.example.com".data)
      "001-002".data "001-001".data false none .success 1002 1001
      (by decide) (by decide) (by decide)⟩

/-- C1 counterexample: with a single label (range `[0, 0]`, QR 58 px wide,
text block 6 px wide) the assembled strip is 71 px wide, not the
`70 = sum + (count - 1) * LABEL_GAP` px the claim predicts: line 144 adds
`len(labels) * LABEL_GAP`, one gap per label including the last. -/
theorem claim_C1_counterexample :
    (generate_label_strip (fun _ => ⟨58, 58⟩) (fun _ => ⟨6, 60⟩) 0 0 [] false
        .success none).strip.width
      ≠ ((stripLabels (fun _ => ⟨58, 58⟩) (fun _ => ⟨6, 60⟩) 0 0 []).map
          Img.width).sum
        + ((stripLabels (fun _ => ⟨58, 58⟩) (fun _ => ⟨6, 60⟩) 0 0 []).length - 1)
          * LABEL_GAP := by
  decide

/-- C1 (amended): for every non-empty list of labels produced from an
inclusive range `[start, end]` with `start <= end`, the assembled strip's
width equals the sum of the individual label widths plus `count` times the
fixed inter-label gap `LABEL_GAP` (a gap follows every label, the last one
included), and the strip's height equals the fixed tape height `TAPE_HEIGHT`
regardless of label content. -/
theorem claim_C1_amended (renderQR renderText : List Char → Img)
    (start_id end_id : Int) (url : List Char) ( print_label : Bool)
    (printer : PrintOutcome) (output_filename : Option (List Char))
    (h : start_id ≤ end_id) :
    (generate_label_strip renderQR renderText start_id end_id url print_label
          printer output_filename).strip.width
        = ((stripLabels renderQR renderText start_id end_id url).map Img.width).sum
          + ((end_id - start_id).toNat + 1) * LABEL_GAP
      ∧ (generate_label_strip renderQR renderText start_id end_id url print_label
          printer output_filename).strip.height = TAPE_HEIGHT := by
  rw [generate_strip_eq]
  refine ⟨?_, rfl⟩
  rw [Img.new_width]
  have hl : (stripLabels renderQR renderText start_id end_id url).length
      = (end_id - start_id).toNat + 1 := by
    rw [stripLabels, List.length_map, pyRange_length]
    omega
  rw [hl]

/-- C1 witness: the single-label strip of the counterexample, measured by the
amended formula: 70 px of label content plus one trailing gap. -/
theorem claim_C1_witness :
    (0 : Int) ≤ 0
      ∧ ((generate_label_strip (fun _ => ⟨58, 58⟩) (fun _ => ⟨6, 60⟩) 0 0 [] false
            .success none).strip.width
          = ((stripLabels (fun _ => ⟨58, 58⟩) (fun _ => ⟨6, 60⟩) 0 0 []).map
              Img.width).sum
            + (((0 : Int) - 0).toNat + 1) * LABEL_GAP
        ∧ (generate_label_strip (fun _ => ⟨58, 58⟩) (fun _ => ⟨6, 60⟩) 0 0 [] false
            .success none).strip.height = TAPE_HEIGHT) :=
  ⟨le_refl 0,
    claim_C1_amended (fun _ => ⟨58, 58⟩) (fun _ => ⟨6, 60⟩) 0 0 [] false .success
      none (le_refl 0)⟩
